import Mathlib

/-!
Verification of the `cellular_automata` repository (files `canvas.rs` and
`lifelike.rs`) against its natural-language specification.

The Rust code is shallowly embedded:
* `Cell`, `Rules`, `Transform`, `Rotate`, `LifeLike` mirror the structs and
  enums of `lifelike.rs`; the `Canvas<Cell>` backing store (`Vec<Vec<Cell>>`
  of dimensions `hgt x wth`) is embedded as a total function
  `Grid = Nat → Nat → Cell` together with the `hgt`/`wth` fields kept in
  `LifeLike`; positions outside `[0,hgt) x [0,wth)` are never touched by the
  embedded operations, matching the vector of the source.
* machine integers are `Nat`/`Int`; the `usize` wrap of release-mode Rust is
  written explicitly as `% USIZE` with `USIZE = 2^64` where the source can
  overflow (`mod_idx`), and `isize → usize` casts as addition of `USIZE`.
* fallible code (panics: out-of-bounds indexing, `unwrap`, modulo by zero,
  unknown characters) returns `Option`/`Except`.
* the in-place double loops of `LifeLike::update` and `LifeLike::next` are
  embedded as folds over the row-major index list `idxList hgt wth`, each
  step performing exactly the per-cell mutation of the source.
-/

/-- Cell of a life-like automaton: `curr` is the displayed state, `succ` the
pending state (`struct Cell { curr: bool, succ: bool }`). -/
structure Cell where
  curr : Bool
  succ : Bool
deriving DecidableEq

/-- All cells are created dead (`Cell::new`). -/
def Cell.new : Cell := ⟨false, false⟩

/-- Source `Cell::birth`: sets the pending state to alive. -/
def Cell.birth (c : Cell) : Cell := ⟨c.curr, true⟩

/-- Source `Cell::kill`: sets the pending state to dead. -/
def Cell.kill (c : Cell) : Cell := ⟨c.curr, false⟩

/-- Source `Cell::is_alive`: reads the current state only. -/
def Cell.is_alive (c : Cell) : Bool := c.curr

/-- Source `Cell::update(&mut self, born, dead)`: commits the pending state to
the current state, incrementing the `born`/`dead` counters on an actual
transition. Returns the new cell and the two updated counters. -/
def Cell.update (c : Cell) (born dead : Nat) : Cell × Nat × Nat :=
  if c.succ then
    if c.curr = false then (⟨true, c.succ⟩, born + 1, dead)
    else (c, born, dead)
  else if c.curr then (⟨false, c.succ⟩, born, dead + 1)
  else (c, born, dead)

/-- The `Canvas<Cell>` backing store, as a total function on coordinates. -/
def Grid : Type := Nat → Nat → Cell

/-- Write one cell of the grid (the effect of `&mut` access at `[a, b]`). -/
def setCell (g : Grid) (a b : Nat) (c : Cell) : Grid :=
  fun x y => if x = a ∧ y = b then c else g x y

/-- Row-major list of the in-bounds coordinates, the iteration order of the
source's `for i in 0..hgt { for j in 0..wth { ... } }` loops. -/
def idxList (h w : Nat) : List (Nat × Nat) :=
  (List.range h).flatMap (fun i => (List.range w).map (fun j => (i, j)))

/-- Number of bits of `usize` on the 64-bit target; wrapping arithmetic of
release-mode Rust is modelled as arithmetic modulo `USIZE`. -/
def USIZE : Nat := 2 ^ 64

/-- Source `canvas.rs::mod_idx(i: isize, n: usize) -> usize`.
For `i >= 0` it is `(i % n as isize) as usize`.
For `i < 0` the source computes `p = n / (-i as usize)`, then
`(i as usize) + p * n` (the cast wraps to `2^64 + i`, and the addition wraps
modulo `2^64` in release mode), and finally `% n`.
Modulo by `n = 0` panics in Rust, hence the `none` branch. -/
def mod_idx (i : Int) (n : Nat) : Option Nat :=
  if n = 0 then none
  else if 0 ≤ i then some (i.toNat % n)
  else
    let p : Nat := n / (-i).toNat
    let iu : Nat := (i + (USIZE : Int)).toNat
    some (((iu + p * n) % USIZE) % n)

/-- Branch of `LifeLike::index_move` for a `-1` offset: wrap at the low edge. -/
def mvUp (a n : Nat) : Nat := if a = 0 then n - 1 else a - 1

/-- Branch of `LifeLike::index_move` for a `+1` offset: wrap at the high edge. -/
def mvDn (a n : Nat) : Nat := if a = n - 1 then 0 else a + 1

/-- One `match` of `LifeLike::index_move` on a single offset; the final `none`
is the `panic!` arm for an offset of absolute value above 1. -/
def optMove (mv : Int) (a n : Nat) : Option Nat :=
  if mv = -1 then some (mvUp a n)
  else if mv = 1 then some (mvDn a n)
  else if mv = 0 then some a
  else none

/-- Source `LifeLike::index_move(i, j, mvi, mvj)`: toroidal move by one step,
`none` on the panic branches. -/
def index_move (h w i j : Nat) (mvi mvj : Int) : Option (Nat × Nat) :=
  match optMove mvi i h with
  | some i2 =>
    match optMove mvj j w with
    | some j2 => some (i2, j2)
    | none => none
  | none => none

/-- Indicator of a live cell at a coordinate pair (the
`if self.field[...].is_alive() { res += 1 }` step of `count_neigh`). -/
def bi (g : Grid) (a b : Nat) : Nat := if (g a b).curr then 1 else 0

/-- Source `LifeLike::count_neigh(i, j)`: the eight `index_move` calls in
source order, `none` if any of them panics. -/
def count_neigh (g : Grid) (h w i j : Nat) : Option Nat :=
  (index_move h w i j (-1) 0).bind (fun p1 =>
  (index_move h w i j (-1) (-1)).bind (fun p2 =>
  (index_move h w i j (-1) 1).bind (fun p3 =>
  (index_move h w i j 1 0).bind (fun p4 =>
  (index_move h w i j 1 (-1)).bind (fun p5 =>
  (index_move h w i j 1 1).bind (fun p6 =>
  (index_move h w i j 0 (-1)).bind (fun p7 =>
  (index_move h w i j 0 1).bind (fun p8 =>
  some (bi g p1.1 p1.2 + bi g p2.1 p2.2 + bi g p3.1 p3.2 + bi g p4.1 p4.2 +
        bi g p5.1 p5.2 + bi g p6.1 p6.2 + bi g p7.1 p7.2 + bi g p8.1 p8.2)))))))))

/-- Total value of `count_neigh` (the source's eight wrapped probes, written
with `mvUp`/`mvDn` directly). `count_neigh` always returns `some` of this. -/
def cnVal (g : Grid) (h w i j : Nat) : Nat :=
  bi g (mvUp i h) j + bi g (mvUp i h) (mvUp j w) + bi g (mvUp i h) (mvDn j w) +
  bi g (mvDn i h) j + bi g (mvDn i h) (mvUp j w) + bi g (mvDn i h) (mvDn j w) +
  bi g i (mvUp j w) + bi g i (mvDn j w)

/-- Rule tables (`struct Rules { b: [bool; 9], s: [bool; 9] }`); the arrays
are embedded as functions whose only written indices are `0..8`. -/
structure Rules where
  b : Nat → Bool
  s : Nat → Bool

/-- Rust `str::split('-')` on the character list of the input string. -/
def splitDash (cs : List Char) : List (List Char) :=
  match cs with
  | [] => [[]]
  | c :: rest =>
    let r := splitDash rest
    if c = '-' then [] :: r
    else
      match r with
      | [] => [[c]]
      | g :: gs => (c :: g) :: gs

/-- Rust `char::to_digit(10)`: `some` of the value for `'0'..='9'`. -/
def charDigit (c : Char) : Option Nat :=
  if c.isDigit then some (c.toNat - ('0').toNat) else none

/-- One side of `Rules::new`: for each character, `to_digit(10).unwrap()`
(`none` = panic on a non-digit) then `table[digit] = true` (`none` = index
panic when the digit is 9, out of bounds for `[bool; 9]`). -/
def setTable (t : Nat → Bool) (cs : List Char) : Option (Nat → Bool) :=
  match cs with
  | [] => some t
  | c :: rest =>
    match charDigit c with
    | some d =>
      if d < 9 then setTable (fun k => if k = d then true else t k) rest
      else none
    | none => none

/-- Source `Rules::new(s)`: split on `-`, then fill the birth table from
`v[0]` and the survive table from `v[1]`. `v[1]` panics (`none`) when the
string holds no `-`; parts of the split beyond the second are ignored. -/
def Rules.new (str : String) : Option Rules :=
  match splitDash str.data with
  | b0 :: s0 :: _ =>
    match setTable (fun _ => false) b0 with
    | some tb =>
      match setTable (fun _ => false) s0 with
      | some ts => some ⟨tb, ts⟩
      | none => none
    | none => none
  | _ => none

/-- The whole automaton state (`struct LifeLike`). -/
structure LifeLike where
  rules : Rules
  field : Grid
  hgt : Nat
  wth : Nat
  cnt : Nat
  born : Nat
  dead : Nat

/-- Replace the field of a `LifeLike`, all other components unchanged. -/
def LifeLike.withField (L : LifeLike) (g : Grid) : LifeLike :=
  ⟨L.rules, g, L.hgt, L.wth, L.cnt, L.born, L.dead⟩

/-- Source `LifeLike::new(hgt, wth, rules)`: parse the rules (`none` on a
panic of `Rules::new`) and create an all-dead canvas with zero counters. -/
def LifeLike.new (h w : Nat) (rules : String) : Option LifeLike :=
  match Rules.new rules with
  | some r => some ⟨r, fun _ _ => Cell.new, h, w, 0, 0, 0⟩
  | none => none

/-- The loop body sequence of `LifeLike::update`: fold `Cell::update` over a
list of coordinates, threading the grid and the `born`/`dead` counters. -/
def updateLoop : List (Nat × Nat) → Grid → Nat → Nat → Grid × Nat × Nat
  | [], g, born, dead => (g, born, dead)
  | p :: rest, g, born, dead =>
    let r := Cell.update (g p.1 p.2) born dead
    updateLoop rest (setCell g p.1 p.2 r.1) r.2.1 r.2.2

/-- Source `LifeLike::update`: reset `born`/`dead`, run `Cell::update` over
every cell in row-major order, then `cnt += born; cnt -= dead` (the two
`usize` operations in source order; truncated subtraction only differs from
the source where the source would underflow, which the invariant proofs below
rule out). -/
def LifeLike.update (L : LifeLike) : LifeLike :=
  let r := updateLoop (idxList L.hgt L.wth) L.field 0 0
  ⟨L.rules, r.1, L.hgt, L.wth, L.cnt + r.2.1 - r.2.2, r.2.1, r.2.2⟩

/-- Per-cell body of `LifeLike::next`: kill a live cell whose neighbor count
is not in the survive table, birth a dead cell whose count is in the birth
table; otherwise leave the cell (and in particular its pending state) as is. -/
def cellNext (R : Rules) (c : Cell) (n : Nat) : Cell :=
  if c.is_alive then
    if R.s n = false then Cell.kill c else c
  else if R.b n = true then Cell.birth c else c

/-- The double loop of `LifeLike::next` before the final `update`: for each
coordinate in row-major order, count neighbors on the grid as it stands
(`none` if `count_neigh` panics) and apply `cellNext`; the `n < 9` guard is
the `[bool; 9]` bounds check of `rules.s[neigh]` / `rules.b[neigh]` (`none`
= index panic). -/
def nextLoop (R : Rules) (h w : Nat) : List (Nat × Nat) → Grid → Option Grid
  | [], g => some g
  | p :: rest, g =>
    match count_neigh g h w p.1 p.2 with
    | some n =>
      if n < 9 then
        nextLoop R h w rest (setCell g p.1 p.2 (cellNext R (g p.1 p.2) n))
      else none
    | none => none

/-- Source `LifeLike::next`: the transition loop followed by `update`. -/
def LifeLike.next (L : LifeLike) : Option LifeLike :=
  match nextLoop L.rules L.hgt L.wth (idxList L.hgt L.wth) L.field with
  | some g => some (LifeLike.update (L.withField g))
  | none => none

/-- Source `Canvas::mod_idx(i, j).birth()`: wraparound write of a pending
birth; `none` when `mod_idx` panics. -/
def birthAt (g : Grid) (h w : Nat) (i j : Int) : Option Grid :=
  match mod_idx i h with
  | some a =>
    match mod_idx j w with
    | some b => some (setCell g a b (Cell.birth (g a b)))
    | none => none
  | none => none

/-- Source `Canvas::mod_idx(i, j).kill()`: wraparound write of a pending
death; `none` when `mod_idx` panics. -/
def killAt (g : Grid) (h w : Nat) (i j : Int) : Option Grid :=
  match mod_idx i h with
  | some a =>
    match mod_idx j w with
    | some b => some (setCell g a b (Cell.kill (g a b)))
    | none => none
  | none => none

/-- The three mutating operations of the public interface used by the
initialisers and pattern loaders: a pending birth, a pending kill, and a
commit (`update`). -/
inductive Op where
  | birth : Int → Int → Op
  | kill : Int → Int → Op
  | update : Op

/-- Apply one operation to the automaton. -/
def applyOp (L : LifeLike) : Op → Option LifeLike
  | Op.birth i j =>
    match birthAt L.field L.hgt L.wth i j with
    | some g => some (L.withField g)
    | none => none
  | Op.kill i j =>
    match killAt L.field L.hgt L.wth i j with
    | some g => some (L.withField g)
    | none => none
  | Op.update => some (LifeLike.update L)

/-- Apply a sequence of operations from left to right. -/
def applyOps (L : LifeLike) : List Op → Option LifeLike
  | [] => some L
  | op :: rest =>
    match applyOp L op with
    | some L2 => applyOps L2 rest
    | none => none

/-- Number of cells with `current = true`, a full re-scan of the grid. -/
def aliveCount (g : Grid) (h w : Nat) : Nat :=
  (idxList h w).countP (fun p => (g p.1 p.2).curr)

/-- Possible rotations of a pattern (`enum Rotate`). -/
inductive Rotate where
  | none : Rotate
  | left : Rotate
  | right : Rotate
  | double : Rotate

/-- A pattern transformation: a rotation combined with an optional mirror
(`struct Transform`). -/
structure Transform where
  rot : Rotate
  mirror : Bool

/-- Source `Transform::next(i, j)`: cursor move for the next cell on the same
scan line, returning the new `(i, j)`. -/
def Transform.next (t : Transform) (i j : Int) : Int × Int :=
  if t.mirror then
    match t.rot with
    | Rotate.none => (i, j - 1)
    | Rotate.left => (i - 1, j)
    | Rotate.right => (i + 1, j)
    | Rotate.double => (i, j + 1)
  else
    match t.rot with
    | Rotate.none => (i, j + 1)
    | Rotate.left => (i - 1, j)
    | Rotate.right => (i + 1, j)
    | Rotate.double => (i, j - 1)

/-- Source `Transform::newline(i, j, i0, j0)`: cursor move for a newline,
returning the new `(i, j)`. -/
def Transform.newline (t : Transform) (i j i0 j0 : Int) : Int × Int :=
  if t.mirror then
    match t.rot with
    | Rotate.none => (i + 1, j0)
    | Rotate.left => (i0, j - 1)
    | Rotate.right => (i0, j + 1)
    | Rotate.double => (i - 1, j0)
  else
    match t.rot with
    | Rotate.none => (i + 1, j0)
    | Rotate.left => (i0, j + 1)
    | Rotate.right => (i0, j - 1)
    | Rotate.double => (i - 1, j0)

/-- The identity transform `T_NONE`. -/
def T_NONE : Transform := ⟨Rotate.none, false⟩

/-- Failure of a pattern loader: `unrecognized c code` is the
`panic!("unknown character ...")` arm, carrying the offending character and,
for the formats whose message prints it, its numeric code (`c as u32`);
`badIndex` is a panic inside `Canvas::mod_idx`. -/
inductive PErr where
  | unrecognized : Char → Option Nat → PErr
  | badIndex : PErr
deriving DecidableEq

/-- The `"txt"` branch of `LifeLike::add_from_file`: a straight scan over the
characters; the accepted alphabet is newline, `x`, `.`, space and `\r`, and
any other character is the panic arm (no numeric code in its message). -/
def parseTxt (t : Transform) (h w : Nat) (i0 j0 : Int) :
    List Char → Grid → Int → Int → Except PErr (Grid × Int × Int)
  | [], g, i, j => Except.ok (g, i, j)
  | c :: rest, g, i, j =>
    if c = '\n' then
      let p := t.newline i j i0 j0
      parseTxt t h w i0 j0 rest g p.1 p.2
    else if c = 'x' then
      match birthAt g h w i j with
      | some g2 =>
        let p := t.next i j
        parseTxt t h w i0 j0 rest g2 p.1 p.2
      | none => Except.error PErr.badIndex
    else if c = '.' then
      match killAt g h w i j with
      | some g2 =>
        let p := t.next i j
        parseTxt t h w i0 j0 rest g2 p.1 p.2
      | none => Except.error PErr.badIndex
    else if c = ' ' then
      let p := t.next i j
      parseTxt t h w i0 j0 rest g p.1 p.2
    else if c = '\r' then parseTxt t h w i0 j0 rest g i j
    else Except.error (PErr.unrecognized c Option.none)

/-- The `"lif"` branch of `LifeLike::add_from_file`. The source's inner
comment loop (`#` up to the next newline) is embedded as a comment mode flag
on the same recursion; alive is `*`, dead is `.`. -/
def parseLif (t : Transform) (h w : Nat) (i0 j0 : Int) :
    List Char → Bool → Grid → Int → Int → Except PErr (Grid × Int × Int)
  | [], _, g, i, j => Except.ok (g, i, j)
  | c :: rest, true, g, i, j =>
    if c = '\n' then parseLif t h w i0 j0 rest false g i j
    else parseLif t h w i0 j0 rest true g i j
  | c :: rest, false, g, i, j =>
    if c = '#' then parseLif t h w i0 j0 rest true g i j
    else if c = '\n' then
      let p := t.newline i j i0 j0
      parseLif t h w i0 j0 rest false g p.1 p.2
    else if c = '*' then
      match birthAt g h w i j with
      | some g2 =>
        let p := t.next i j
        parseLif t h w i0 j0 rest false g2 p.1 p.2
      | none => Except.error PErr.badIndex
    else if c = '.' then
      match killAt g h w i j with
      | some g2 =>
        let p := t.next i j
        parseLif t h w i0 j0 rest false g2 p.1 p.2
      | none => Except.error PErr.badIndex
    else if c = '\r' then parseLif t h w i0 j0 rest false g i j
    else Except.error (PErr.unrecognized c Option.none)

/-- The `"cells"` branch of `LifeLike::add_from_file`: like `lif` with `!` as
the comment starter and `O` for a live cell; the panic message prints the
numeric code of the offending character. -/
def parseCells (t : Transform) (h w : Nat) (i0 j0 : Int) :
    List Char → Bool → Grid → Int → Int → Except PErr (Grid × Int × Int)
  | [], _, g, i, j => Except.ok (g, i, j)
  | c :: rest, true, g, i, j =>
    if c = '\n' then parseCells t h w i0 j0 rest false g i j
    else parseCells t h w i0 j0 rest true g i j
  | c :: rest, false, g, i, j =>
    if c = '!' then parseCells t h w i0 j0 rest true g i j
    else if c = '\n' then
      let p := t.newline i j i0 j0
      parseCells t h w i0 j0 rest false g p.1 p.2
    else if c = 'O' then
      match birthAt g h w i j with
      | some g2 =>
        let p := t.next i j
        parseCells t h w i0 j0 rest false g2 p.1 p.2
      | none => Except.error PErr.badIndex
    else if c = '.' then
      match killAt g h w i j with
      | some g2 =>
        let p := t.next i j
        parseCells t h w i0 j0 rest false g2 p.1 p.2
      | none => Except.error PErr.badIndex
    else if c = '\r' then parseCells t h w i0 j0 rest false g i j
    else Except.error (PErr.unrecognized c (some c.toNat))

/-- Repeated newline of the `$` arm of the rle branch. -/
def newlineN (t : Transform) (i0 j0 : Int) : Nat → Int → Int → Int × Int
  | 0, i, j => (i, j)
  | n + 1, i, j =>
    let p := t.newline i j i0 j0
    newlineN t i0 j0 n p.1 p.2

/-- Repeated `birth` plus cursor advance of the `o` arm of the rle branch. -/
def birthN (t : Transform) (h w : Nat) : Nat → Grid → Int → Int → Option (Grid × Int × Int)
  | 0, g, i, j => some (g, i, j)
  | n + 1, g, i, j =>
    match birthAt g h w i j with
    | some g2 =>
      let p := t.next i j
      birthN t h w n g2 p.1 p.2
    | none => none

/-- Repeated `kill` plus cursor advance of the `b` arm of the rle branch. -/
def killN (t : Transform) (h w : Nat) : Nat → Grid → Int → Int → Option (Grid × Int × Int)
  | 0, g, i, j => some (g, i, j)
  | n + 1, g, i, j =>
    match killAt g h w i j with
    | some g2 =>
      let p := t.next i j
      killN t h w n g2 p.1 p.2
    | none => none

/-- The `"rle"` branch of `LifeLike::add_from_file`. State: a comment mode
flag (for `#` and the ignored `x = ...` header line, both skipped to the next
newline) and the pending repeat count `cnt`. A `$`/`o`/`b` with `cnt = 0`
acts once; `!` stops the parse immediately, the unconsumed suffix being
returned. The panic message prints the numeric code of the offending
character. -/
def parseRle (t : Transform) (h w : Nat) (i0 j0 : Int) :
    List Char → Bool → Nat → Grid → Int → Int → Except PErr (Grid × Int × Int × List Char)
  | [], _, _, g, i, j => Except.ok (g, i, j, [])
  | c :: rest, true, cnt, g, i, j =>
    if c = '\n' then parseRle t h w i0 j0 rest false cnt g i j
    else parseRle t h w i0 j0 rest true cnt g i j
  | c :: rest, false, cnt, g, i, j =>
    if c = '#' ∨ c = 'x' then parseRle t h w i0 j0 rest true cnt g i j
    else if c = '$' then
      let n := if cnt = 0 then 1 else cnt
      let p := newlineN t i0 j0 n i j
      parseRle t h w i0 j0 rest false 0 g p.1 p.2
    else if c = 'o' then
      let n := if cnt = 0 then 1 else cnt
      match birthN t h w n g i j with
      | some r => parseRle t h w i0 j0 rest false 0 r.1 r.2.1 r.2.2
      | none => Except.error PErr.badIndex
    else if c = 'b' then
      let n := if cnt = 0 then 1 else cnt
      match killN t h w n g i j with
      | some r => parseRle t h w i0 j0 rest false 0 r.1 r.2.1 r.2.2
      | none => Except.error PErr.badIndex
    else if c.isDigit then
      parseRle t h w i0 j0 rest false (cnt * 10 + (c.toNat - ('0').toNat)) g i j
    else if c = '!' then Except.ok (g, i, j, rest)
    else if c = '\r' then parseRle t h w i0 j0 rest false cnt g i j
    else if c = '\n' then parseRle t h w i0 j0 rest false cnt g i j
    else Except.error (PErr.unrecognized c (some c.toNat))

/-- Accepted alphabet of the `txt` format. -/
def txtOk (c : Char) : Prop :=
  c = '\n' ∨ c = 'x' ∨ c = '.' ∨ c = ' ' ∨ c = '\r'

/-- Accepted alphabet of the `lif` format (outside comments). -/
def lifOk (c : Char) : Prop :=
  c = '#' ∨ c = '\n' ∨ c = '*' ∨ c = '.' ∨ c = '\r'

/-- Accepted alphabet of the `cells` format (outside comments). -/
def cellsOk (c : Char) : Prop :=
  c = '!' ∨ c = '\n' ∨ c = 'O' ∨ c = '.' ∨ c = '\r'

/-- Accepted alphabet of the `rle` format (outside comments). -/
def rleOk (c : Char) : Prop :=
  c = '#' ∨ c = 'x' ∨ c = '$' ∨ c = 'o' ∨ c = 'b' ∨ c.isDigit = true ∨
    c = '!' ∨ c = '\r' ∨ c = '\n'

instance (c : Char) : Decidable (txtOk c) := by unfold txtOk; infer_instance

instance (c : Char) : Decidable (lifOk c) := by unfold lifOk; infer_instance

instance (c : Char) : Decidable (cellsOk c) := by unfold cellsOk; infer_instance

instance (c : Char) : Decidable (rleOk c) := by unfold rleOk; infer_instance

/-- Wraparound of an integer coordinate into `[0, n)` by floor-semantics
modulo (for positive `n`, `Int.emod` is exactly the floor-mod representative). -/
def wrapIdx (a : Int) (n : Nat) : Nat := (a % (n : Int)).toNat

/-- Specification-side neighbor count: the number of live cells among the
eight toroidal Moore neighbors `((i + di) mod h, (j + dj) mod w)`, written in
the probe order of the source. -/
def mooreCount (g : Grid) (h w i j : Nat) : Nat :=
  bi g (wrapIdx ((i : Int) - 1) h) (wrapIdx ((j : Int)) w) +
  bi g (wrapIdx ((i : Int) - 1) h) (wrapIdx ((j : Int) - 1) w) +
  bi g (wrapIdx ((i : Int) - 1) h) (wrapIdx ((j : Int) + 1) w) +
  bi g (wrapIdx ((i : Int) + 1) h) (wrapIdx ((j : Int)) w) +
  bi g (wrapIdx ((i : Int) + 1) h) (wrapIdx ((j : Int) - 1) w) +
  bi g (wrapIdx ((i : Int) + 1) h) (wrapIdx ((j : Int) + 1) w) +
  bi g (wrapIdx ((i : Int)) h) (wrapIdx ((j : Int) - 1) w) +
  bi g (wrapIdx ((i : Int)) h) (wrapIdx ((j : Int) + 1) w)

/-- Specification-side pure synchronous step on the frozen grid: every
in-bounds cell becomes (both in `curr` and in the committed pending state)
alive iff the rule table selected by its prior `curr` holds at its neighbor
count over the prior grid; out-of-bounds entries of the embedding function
are untouched. -/
def pureStep (R : Rules) (h w : Nat) (g : Grid) : Grid :=
  fun i j =>
    if i < h ∧ j < w then
      let n := cnVal g h w i j
      let v := if (g i j).curr then R.s n else R.b n
      ⟨v, v⟩
    else g i j

/-- Evaluation of a grid write. -/
theorem setCell_eval (g : Grid) (a b : Nat) (c : Cell) (x y : Nat) :
    setCell g a b c x y = if x = a ∧ y = b then c else g x y := rfl

/-- A grid write does not touch other coordinates. -/
theorem setCell_other (g : Grid) (a b : Nat) (c : Cell) (x y : Nat)
    (hne : ¬(x = a ∧ y = b)) : setCell g a b c x y = g x y := by
  rw [setCell_eval, if_neg hne]

/-- A grid write at the written coordinate. -/
theorem setCell_same (g : Grid) (a b : Nat) (c : Cell) : setCell g a b c a b = c := by
  rw [setCell_eval, if_pos ⟨rfl, rfl⟩]

/-- Membership in the row-major index list is exactly in-boundedness. -/
theorem idxList_mem (h w : Nat) (p : Nat × Nat) :
    p ∈ idxList h w ↔ p.1 < h ∧ p.2 < w := by
  unfold idxList
  simp only [List.mem_flatMap, List.mem_map, List.mem_range]
  constructor
  · rintro ⟨i, hi, j, hj, rfl⟩
    exact ⟨hi, hj⟩
  · rintro ⟨h1, h2⟩
    exact ⟨p.1, h1, p.2, h2, rfl⟩

/-- The row-major index list has no duplicates. -/
theorem idxList_nodup (h w : Nat) : (idxList h w).Nodup := by
  unfold idxList
  refine List.nodup_flatMap.mpr ⟨?_, ?_⟩
  · intro i _
    refine List.Nodup.map ?_ (List.nodup_range w)
    intro a b hab
    exact (Prod.mk.injEq _ _ _ _).mp hab |>.2
  · refine List.Pairwise.imp ?_ (List.pairwise_lt_range h)
    intro a b hab
    intro p hpa hpb
    simp only [List.mem_map, List.mem_range] at hpa hpb
    obtain ⟨ja, _, rfl⟩ := hpa
    obtain ⟨jb, _, he⟩ := hpb
    have := (Prod.mk.injEq _ _ _ _).mp he |>.1
    omega

/-- Closed form of `Cell::update`: the new cell copies the pending state into
the current state, and the counters each gain the indicator of the
corresponding transition. -/
theorem Cell.update_eq (c : Cell) (born dead : Nat) :
    Cell.update c born dead =
      (⟨c.succ, c.succ⟩, born + (if c.succ ∧ ¬ c.curr then 1 else 0),
        dead + (if ¬ c.succ ∧ c.curr then 1 else 0)) := by
  obtain ⟨cu, su⟩ := c
  cases cu <;> cases su <;> simp [Cell.update]

/-- The transition body of `next` never changes the current state. -/
theorem cellNext_curr (R : Rules) (c : Cell) (n : Nat) :
    (cellNext R c n).curr = c.curr := by
  unfold cellNext Cell.kill Cell.birth Cell.is_alive
  by_cases h1 : c.curr <;> by_cases h2 : R.s n = false <;> by_cases h3 : R.b n = true <;>
    simp [h1, h2, h3]

/-- Pending state computed by the transition body, assuming the cell starts
committed (`succ = curr`): alive cells consult the survive table, dead cells
the birth table. -/
theorem cellNext_succ (R : Rules) (c : Cell) (n : Nat) (hc : c.succ = c.curr) :
    (cellNext R c n).succ = (if c.curr then R.s n else R.b n) := by
  unfold cellNext Cell.kill Cell.birth Cell.is_alive
  by_cases h1 : c.curr <;> by_cases h2 : R.s n = false <;> by_cases h3 : R.b n = true <;>
    simp [h1, h2, h3, hc]

/-- The eight probes of `count_neigh` all succeed and deliver the sum of the
eight wrapped live-cell indicators. -/
theorem count_neigh_eq (g : Grid) (h w i j : Nat) :
    count_neigh g h w i j = some (cnVal g h w i j) := rfl

/-- A cell indicator is at most one. -/
theorem bi_le_one (g : Grid) (a b : Nat) : bi g a b ≤ 1 := by
  unfold bi; split <;> omega

/-- A neighbor count is at most eight. -/
theorem cnVal_le_eight (g : Grid) (h w i j : Nat) : cnVal g h w i j ≤ 8 := by
  unfold cnVal
  have h1 := bi_le_one g (mvUp i h) j
  have h2 := bi_le_one g (mvUp i h) (mvUp j w)
  have h3 := bi_le_one g (mvUp i h) (mvDn j w)
  have h4 := bi_le_one g (mvDn i h) j
  have h5 := bi_le_one g (mvDn i h) (mvUp j w)
  have h6 := bi_le_one g (mvDn i h) (mvDn j w)
  have h7 := bi_le_one g i (mvUp j w)
  have h8 := bi_le_one g i (mvDn j w)
  omega

/-- The neighbor count only reads the current states of the grid. -/
theorem cnVal_congr (g1 g2 : Grid) (h w i j : Nat)
    (hc : ∀ x y, (g1 x y).curr = (g2 x y).curr) :
    cnVal g1 h w i j = cnVal g2 h w i j := by
  unfold cnVal bi
  rw [hc, hc, hc, hc, hc, hc, hc, hc]

/-- Indicator alignment between the propositional and boolean forms of the
born-transition test. -/
theorem born_ind_eq (c : Cell) :
    (if c.succ ∧ ¬ c.curr then 1 else 0)
      = (if (c.succ && !c.curr) = true then (1 : Nat) else 0) := by
  cases hs : c.succ <;> cases hc : c.curr <;> simp [hs, hc]

/-- Indicator alignment between the propositional and boolean forms of the
died-transition test. -/
theorem dead_ind_eq (c : Cell) :
    (if ¬ c.succ ∧ c.curr then 1 else 0)
      = (if (!c.succ && c.curr) = true then (1 : Nat) else 0) := by
  cases hs : c.succ <;> cases hc : c.curr <;> simp [hs, hc]

/-- Characterisation of the `update` loop over a duplicate-free list of
coordinates: every visited cell commits its pending state, unvisited entries
are untouched, and the counters gain exactly the number of visited cells that
were born resp. died in this pass. -/
theorem updateLoop_spec (l : List (Nat × Nat)) (hl : l.Nodup) (g : Grid) (born dead : Nat) :
    (∀ p, p ∈ l →
      (updateLoop l g born dead).1 p.1 p.2 = ⟨(g p.1 p.2).succ, (g p.1 p.2).succ⟩)
    ∧ (∀ x y, (x, y) ∉ l → (updateLoop l g born dead).1 x y = g x y)
    ∧ (updateLoop l g born dead).2.1
        = born + l.countP (fun p => (g p.1 p.2).succ && !(g p.1 p.2).curr)
    ∧ (updateLoop l g born dead).2.2
        = dead + l.countP (fun p => !(g p.1 p.2).succ && (g p.1 p.2).curr) := by
  induction l generalizing g born dead with
  | nil => simp [updateLoop]
  | cons q rest ih =>
    obtain ⟨hq, hrest⟩ := List.nodup_cons.mp hl
    have hstep : updateLoop (q :: rest) g born dead
        = updateLoop rest (setCell g q.1 q.2 ⟨(g q.1 q.2).succ, (g q.1 q.2).succ⟩)
            (born + (if (g q.1 q.2).succ ∧ ¬ (g q.1 q.2).curr then 1 else 0))
            (dead + (if ¬ (g q.1 q.2).succ ∧ (g q.1 q.2).curr then 1 else 0)) := by
      simp only [updateLoop, Cell.update_eq]
    have hg1o : ∀ x y, ¬(x = q.1 ∧ y = q.2) →
        setCell g q.1 q.2 ⟨(g q.1 q.2).succ, (g q.1 q.2).succ⟩ x y = g x y :=
      fun x y hxy => setCell_other g q.1 q.2 _ x y hxy
    have hgrid : ∀ p, p ∈ rest →
        setCell g q.1 q.2 ⟨(g q.1 q.2).succ, (g q.1 q.2).succ⟩ p.1 p.2 = g p.1 p.2 := by
      intro p hp
      refine hg1o p.1 p.2 ?_
      rintro ⟨e1, e2⟩
      apply hq
      have : p = q := Prod.ext e1 e2
      rw [← this]
      exact hp
    obtain ⟨ih1, ih2, ih3, ih4⟩ :=
      ih hrest (setCell g q.1 q.2 ⟨(g q.1 q.2).succ, (g q.1 q.2).succ⟩)
        (born + (if (g q.1 q.2).succ ∧ ¬ (g q.1 q.2).curr then 1 else 0))
        (dead + (if ¬ (g q.1 q.2).succ ∧ (g q.1 q.2).curr then 1 else 0))
    refine ⟨?_, ?_, ?_, ?_⟩
    · intro p hp
      rcases List.mem_cons.mp hp with hpq | hpr
      · subst hpq
        rw [hstep]
        have hnotin : (p.1, p.2) ∉ rest := by
          have : (p.1, p.2) = p := rfl
          rw [this]
          exact hq
        rw [ih2 p.1 p.2 hnotin, setCell_same]
      · rw [hstep, ih1 p hpr, hgrid p hpr]
    · intro x y hxy
      have hxq : ¬(x = q.1 ∧ y = q.2) := by
        rintro ⟨e1, e2⟩
        exact hxy (by rw [e1, e2]; exact List.mem_cons_self q rest)
      have hxr : (x, y) ∉ rest := fun hmem => hxy (List.mem_cons_of_mem q hmem)
      rw [hstep, ih2 x y hxr, hg1o x y hxq]
    · rw [hstep, ih3, List.countP_cons]
      have hcount : rest.countP (fun p =>
            (setCell g q.1 q.2 ⟨(g q.1 q.2).succ, (g q.1 q.2).succ⟩ p.1 p.2).succ &&
            !(setCell g q.1 q.2 ⟨(g q.1 q.2).succ, (g q.1 q.2).succ⟩ p.1 p.2).curr)
          = rest.countP (fun p => (g p.1 p.2).succ && !(g p.1 p.2).curr) := by
        refine List.countP_congr ?_
        intro p hp
        rw [hgrid p hp]
      rw [hcount, born_ind_eq]
      omega
    · rw [hstep, ih4, List.countP_cons]
      have hcount : rest.countP (fun p =>
            !(setCell g q.1 q.2 ⟨(g q.1 q.2).succ, (g q.1 q.2).succ⟩ p.1 p.2).succ &&
            (setCell g q.1 q.2 ⟨(g q.1 q.2).succ, (g q.1 q.2).succ⟩ p.1 p.2).curr)
          = rest.countP (fun p => !(g p.1 p.2).succ && (g p.1 p.2).curr) := by
        refine List.countP_congr ?_
        intro p hp
        rw [hgrid p hp]
      rw [hcount, dead_ind_eq]
      omega

/-- Characterisation of the transition loop of `next` over a duplicate-free
list of coordinates: the loop never panics, never changes a current state,
rewrites the pending state of every visited cell from the rule tables and the
neighbor count over the grid as it was when the loop started, and leaves
unvisited entries untouched. -/
theorem nextLoop_spec (R : Rules) (h w : Nat) (l : List (Nat × Nat)) (hl : l.Nodup) (g : Grid) :
    ∃ g2, nextLoop R h w l g = some g2
      ∧ (∀ x y, (g2 x y).curr = (g x y).curr)
      ∧ (∀ p, p ∈ l → g2 p.1 p.2 = cellNext R (g p.1 p.2) (cnVal g h w p.1 p.2))
      ∧ (∀ x y, (x, y) ∉ l → g2 x y = g x y) := by
  induction l generalizing g with
  | nil => exact ⟨g, rfl, fun x y => rfl, by simp, fun x y _ => rfl⟩
  | cons q rest ih =>
    obtain ⟨hq, hrest⟩ := List.nodup_cons.mp hl
    have hlt : cnVal g h w q.1 q.2 < 9 := by
      have := cnVal_le_eight g h w q.1 q.2
      omega
    have hstep : nextLoop R h w (q :: rest) g
        = nextLoop R h w rest
            (setCell g q.1 q.2 (cellNext R (g q.1 q.2) (cnVal g h w q.1 q.2))) := by
      simp only [nextLoop, count_neigh_eq, hlt, if_pos]
    have hg1c : ∀ x y,
        (setCell g q.1 q.2 (cellNext R (g q.1 q.2) (cnVal g h w q.1 q.2)) x y).curr
          = (g x y).curr := by
      intro x y
      rw [setCell_eval]
      split
      · rename_i he
        obtain ⟨e1, e2⟩ := he
        rw [e1, e2, cellNext_curr]
      · rfl
    have hg1o : ∀ p, p ∈ rest →
        setCell g q.1 q.2 (cellNext R (g q.1 q.2) (cnVal g h w q.1 q.2)) p.1 p.2
          = g p.1 p.2 := by
      intro p hp
      refine setCell_other g q.1 q.2 _ p.1 p.2 ?_
      rintro ⟨e1, e2⟩
      apply hq
      have : p = q := Prod.ext e1 e2
      rw [← this]
      exact hp
    obtain ⟨g2, heq, hcur, hmem, hout⟩ :=
      ih hrest (setCell g q.1 q.2 (cellNext R (g q.1 q.2) (cnVal g h w q.1 q.2)))
    refine ⟨g2, by rw [hstep, heq], ?_, ?_, ?_⟩
    · intro x y
      rw [hcur x y, hg1c x y]
    · intro p hp
      rcases List.mem_cons.mp hp with hpq | hpr
      · subst hpq
        have hnotin : (p.1, p.2) ∉ rest := hq
        rw [hout p.1 p.2 hnotin, setCell_same]
      · rw [hmem p hpr, hg1o p hpr]
        have : cnVal (setCell g q.1 q.2 (cellNext R (g q.1 q.2) (cnVal g h w q.1 q.2)))
            h w p.1 p.2 = cnVal g h w p.1 p.2 :=
          cnVal_congr _ _ h w p.1 p.2 hg1c
        rw [this]
    · intro x y hxy
      have hxq : ¬(x = q.1 ∧ y = q.2) := by
        rintro ⟨e1, e2⟩
        exact hxy (by rw [e1, e2]; exact List.mem_cons_self q rest)
      have hxr : (x, y) ∉ rest := fun hmem2 => hxy (List.mem_cons_of_mem q hmem2)
      rw [hout x y hxr, setCell_other g q.1 q.2 _ x y hxq]

/-- Helper: `-1` modulo a positive `n` is `n - 1` under floor semantics. -/
theorem neg_one_emod (n : Nat) (hn : 0 < n) : (-1 : Int) % (n : Int) = (n : Int) - 1 := by
  have h1 : ((n : Int) - 1 + (n : Int) * (-1)) % (n : Int) = ((n : Int) - 1) % (n : Int) :=
    Int.add_mul_emod_self_left ((n : Int) - 1) (n : Int) (-1)
  have h2 : ((n : Int) - 1) % (n : Int) = (n : Int) - 1 := by
    apply Int.emod_eq_of_lt <;> omega
  have h3 : ((n : Int) - 1 + (n : Int) * (-1)) = -1 := by ring
  rw [h3] at h1
  rw [h2] at h1
  exact h1

/-- The wrapped coordinate is always in bounds for a positive modulus. -/
theorem wrapIdx_lt (a : Int) (n : Nat) (hn : 0 < n) : wrapIdx a n < n := by
  unfold wrapIdx
  have h1 := Int.emod_nonneg a (show (n : Int) ≠ 0 by omega)
  have h2 := Int.emod_lt_of_pos a (show (0 : Int) < (n : Int) by omega)
  omega

/-- The `-1` branch of `index_move` is floor-mod of `a - 1`. -/
theorem mvUp_wrap (a n : Nat) (hn : 0 < n) (ha : a < n) :
    mvUp a n = wrapIdx ((a : Int) - 1) n := by
  unfold mvUp wrapIdx
  by_cases h0 : a = 0
  · subst h0
    rw [if_pos rfl]
    have he : ((0 : Nat) : Int) - 1 = -1 := by norm_num
    rw [he, neg_one_emod n hn]
    omega
  · rw [if_neg h0]
    have he : ((a : Int) - 1) % (n : Int) = (a : Int) - 1 := by
      apply Int.emod_eq_of_lt <;> omega
    rw [he]
    omega

/-- The `+1` branch of `index_move` is floor-mod of `a + 1`. -/
theorem mvDn_wrap (a n : Nat) (hn : 0 < n) (ha : a < n) :
    mvDn a n = wrapIdx ((a : Int) + 1) n := by
  unfold mvDn wrapIdx
  by_cases h0 : a = n - 1
  · rw [if_pos h0]
    have he : (a : Int) + 1 = (n : Int) := by omega
    rw [he, Int.emod_self]
    omega
  · rw [if_neg h0]
    have he : ((a : Int) + 1) % (n : Int) = (a : Int) + 1 := by
      apply Int.emod_eq_of_lt <;> omega
    rw [he]
    omega

/-- An in-bounds coordinate is its own floor-mod representative. -/
theorem wrap_self (a n : Nat) (ha : a < n) : a = wrapIdx ((a : Int)) n := by
  unfold wrapIdx
  have he : ((a : Int)) % (n : Int) = (a : Int) := by
    apply Int.emod_eq_of_lt <;> omega
  rw [he]
  omega

/-- For positive `n` the wraparound index function never panics. -/
theorem mod_idx_isSome (i : Int) (n : Nat) (hn : 0 < n) : ∃ a, mod_idx i n = some a := by
  unfold mod_idx
  rw [if_neg (show ¬ n = 0 by omega)]
  by_cases h : 0 ≤ i
  · rw [if_pos h]
    exact ⟨_, rfl⟩
  · rw [if_neg h]
    exact ⟨_, rfl⟩

/-- Per-pass book-keeping identity: currently-alive plus newly-born equals
pending-alive plus newly-died, counted over any cell list. -/
theorem countP_balance (g : Grid) (l : List (Nat × Nat)) :
    l.countP (fun p => (g p.1 p.2).curr)
        + l.countP (fun p => (g p.1 p.2).succ && !(g p.1 p.2).curr)
      = l.countP (fun p => (g p.1 p.2).succ)
        + l.countP (fun p => !(g p.1 p.2).succ && (g p.1 p.2).curr) := by
  induction l with
  | nil => rfl
  | cons q rest ih =>
    simp only [List.countP_cons]
    cases hs : (g q.1 q.2).succ <;> cases hc : (g q.1 q.2).curr <;>
      simp [hs, hc] <;> omega

/-- A pending birth never changes any current state. -/
theorem birthAt_curr (g : Grid) (h w : Nat) (i j : Int) (g2 : Grid)
    (hb : birthAt g h w i j = some g2) : ∀ x y, (g2 x y).curr = (g x y).curr := by
  unfold birthAt at hb
  cases ha : mod_idx i h with
  | none => rw [ha] at hb; exact absurd hb (by simp)
  | some a =>
    rw [ha] at hb
    cases hbj : mod_idx j w with
    | none => rw [hbj] at hb; exact absurd hb (by simp)
    | some b =>
      rw [hbj] at hb
      have hg2 : setCell g a b (Cell.birth (g a b)) = g2 := by
        injection hb
      intro x y
      rw [← hg2, setCell_eval]
      split
      · rename_i he
        obtain ⟨e1, e2⟩ := he
        rw [e1, e2]
        rfl
      · rfl

/-- A pending kill never changes any current state. -/
theorem killAt_curr (g : Grid) (h w : Nat) (i j : Int) (g2 : Grid)
    (hb : killAt g h w i j = some g2) : ∀ x y, (g2 x y).curr = (g x y).curr := by
  unfold killAt at hb
  cases ha : mod_idx i h with
  | none => rw [ha] at hb; exact absurd hb (by simp)
  | some a =>
    rw [ha] at hb
    cases hbj : mod_idx j w with
    | none => rw [hbj] at hb; exact absurd hb (by simp)
    | some b =>
      rw [hbj] at hb
      have hg2 : setCell g a b (Cell.kill (g a b)) = g2 := by
        injection hb
      intro x y
      rw [← hg2, setCell_eval]
      split
      · rename_i he
        obtain ⟨e1, e2⟩ := he
        rw [e1, e2]
        rfl
      · rfl

/-- Grids agreeing on current states have the same alive count. -/
theorem aliveCount_congr (g1 g2 : Grid) (h w : Nat)
    (hc : ∀ x y, (g1 x y).curr = (g2 x y).curr) :
    aliveCount g1 h w = aliveCount g2 h w := by
  unfold aliveCount
  refine List.countP_congr ?_
  intro p _
  rw [hc p.1 p.2]

/-- Characterisation of `LifeLike::update`: each in-bounds cell commits its
pending state, out-of-bounds entries are untouched, the pass counters are the
numbers of born and died cells, the cached counter moves by `born - dead`
(in source order, `+ born` then `- dead`), and rules and dimensions are
unchanged. -/
theorem update_spec (L : LifeLike) :
    (∀ p, p ∈ idxList L.hgt L.wth →
      (L.update).field p.1 p.2 = ⟨(L.field p.1 p.2).succ, (L.field p.1 p.2).succ⟩)
    ∧ (∀ x y, (x, y) ∉ idxList L.hgt L.wth → (L.update).field x y = L.field x y)
    ∧ (L.update).born
        = (idxList L.hgt L.wth).countP
            (fun p => (L.field p.1 p.2).succ && !(L.field p.1 p.2).curr)
    ∧ (L.update).dead
        = (idxList L.hgt L.wth).countP
            (fun p => !(L.field p.1 p.2).succ && (L.field p.1 p.2).curr)
    ∧ (L.update).cnt = L.cnt + (L.update).born - (L.update).dead
    ∧ (L.update).rules = L.rules ∧ (L.update).hgt = L.hgt ∧ (L.update).wth = L.wth := by
  obtain ⟨h1, h2, h3, h4⟩ :=
    updateLoop_spec (idxList L.hgt L.wth) (idxList_nodup _ _) L.field 0 0
  have hf : (L.update).field = (updateLoop (idxList L.hgt L.wth) L.field 0 0).1 := rfl
  have hb : (L.update).born = (updateLoop (idxList L.hgt L.wth) L.field 0 0).2.1 := rfl
  have hd : (L.update).dead = (updateLoop (idxList L.hgt L.wth) L.field 0 0).2.2 := rfl
  refine ⟨?_, ?_, ?_, ?_, rfl, rfl, rfl, rfl⟩
  · intro p hp
    rw [hf]
    exact h1 p hp
  · intro x y hxy
    rw [hf]
    exact h2 x y hxy
  · rw [hb, h3]
    omega
  · rw [hd, h4]
    omega

/-- Relation between the cached counter, the re-scan count and the pass
counters across one commit, assuming the counter was accurate before. -/
theorem update_cnt (L : LifeLike) (hc : L.cnt = aliveCount L.field L.hgt L.wth) :
    (L.update).cnt = aliveCount (L.update).field L.hgt L.wth
    ∧ (L.update).cnt + (L.update).dead = L.cnt + (L.update).born := by
  obtain ⟨h1, h2, h3, h4, h5, _, _, _⟩ := update_spec L
  have halive2 : aliveCount (L.update).field L.hgt L.wth
      = (idxList L.hgt L.wth).countP (fun p => (L.field p.1 p.2).succ) := by
    unfold aliveCount
    refine List.countP_congr ?_
    intro p hp
    rw [h1 p hp]
  have hbal := countP_balance L.field (idxList L.hgt L.wth)
  have hcnt : L.cnt = (idxList L.hgt L.wth).countP (fun p => (L.field p.1 p.2).curr) := hc
  omega

/-- State invariant of the engine, relative to fixed dimensions: the cached
alive counter always equals a full re-scan of the current states. -/
def InvL (L : LifeLike) (h w : Nat) : Prop :=
  L.hgt = h ∧ L.wth = w ∧ L.cnt = aliveCount L.field h w

/-- Every single operation preserves the counter invariant. -/
theorem applyOp_inv (h w : Nat) (L L2 : LifeLike) (hi : InvL L h w) (op : Op)
    (happ : applyOp L op = some L2) : InvL L2 h w := by
  obtain ⟨e1, e2, e3⟩ := hi
  cases op with
  | birth i j =>
    cases hb : birthAt L.field L.hgt L.wth i j with
    | none => exact absurd happ (by simp only [applyOp, hb]; simp)
    | some g2 =>
      simp only [applyOp, hb, Option.some.injEq] at happ
      have hL2 : L.withField g2 = L2 := happ
      have hcur := birthAt_curr _ _ _ _ _ _ hb
      rw [← hL2]
      refine ⟨e1, e2, ?_⟩
      show L.cnt = aliveCount g2 h w
      rw [e3, aliveCount_congr g2 L.field h w hcur]
  | kill i j =>
    cases hb : killAt L.field L.hgt L.wth i j with
    | none => exact absurd happ (by simp only [applyOp, hb]; simp)
    | some g2 =>
      simp only [applyOp, hb, Option.some.injEq] at happ
      have hL2 : L.withField g2 = L2 := happ
      have hcur := killAt_curr _ _ _ _ _ _ hb
      rw [← hL2]
      refine ⟨e1, e2, ?_⟩
      show L.cnt = aliveCount g2 h w
      rw [e3, aliveCount_congr g2 L.field h w hcur]
  | update =>
    simp only [applyOp, Option.some.injEq] at happ
    have hL2 : L.update = L2 := happ
    obtain ⟨hcnt, _⟩ := update_cnt L (by rw [e3, e1, e2])
    obtain ⟨_, _, _, _, _, _, hh, hw⟩ := update_spec L
    rw [← hL2]
    exact ⟨by rw [hh, e1], by rw [hw, e2], by rw [hcnt, e1, e2]⟩

/-- Every operation sequence preserves the counter invariant. -/
theorem applyOps_inv (h w : Nat) : ∀ (ops : List Op) (L L2 : LifeLike),
    InvL L h w → applyOps L ops = some L2 → InvL L2 h w := by
  intro ops
  induction ops with
  | nil =>
    intro L L2 hi happ
    have : L = L2 := by
      unfold applyOps at happ
      injection happ
    rw [← this]
    exact hi
  | cons op rest ih =>
    intro L L2 hi happ
    unfold applyOps at happ
    cases hop : applyOp L op with
    | none => rw [hop] at happ; exact absurd happ (by simp)
    | some L1 =>
      rw [hop] at happ
      exact ih L1 L2 (applyOp_inv h w L L1 hi op hop) happ

/-- A freshly constructed engine satisfies the counter invariant. -/
theorem new_inv (h w : Nat) (rules : String) (L0 : LifeLike)
    (hnew : LifeLike.new h w rules = some L0) : InvL L0 h w := by
  unfold LifeLike.new at hnew
  cases hr : Rules.new rules with
  | none => rw [hr] at hnew; exact absurd hnew (by simp)
  | some r =>
    rw [hr] at hnew
    have hL0 : (⟨r, fun _ _ => Cell.new, h, w, 0, 0, 0⟩ : LifeLike) = L0 := by
      injection hnew
    rw [← hL0]
    refine ⟨rfl, rfl, ?_⟩
    show 0 = aliveCount (fun _ _ => Cell.new) h w
    unfold aliveCount
    rw [List.countP_eq_zero.mpr]
    intro p _
    simp [Cell.new]

/-- One side of the rules parser fails (panics) exactly when some character
of that side is a non-digit (the `to_digit(10).unwrap()` panic) or a digit of
value at least 9 (the `[bool; 9]` index panic, hit exactly by the digit `9`). -/
theorem setTable_none (cs : List Char) : ∀ t : Nat → Bool,
    (setTable t cs = none ↔ ∃ c ∈ cs, ¬ c.isDigit = true ∨ 9 ≤ c.toNat - ('0').toNat) := by
  induction cs with
  | nil => intro t; simp [setTable]
  | cons c rest ih =>
    intro t
    by_cases hd : c.isDigit = true
    · by_cases h9 : c.toNat - ('0').toNat < 9
      · have hstep : setTable t (c :: rest)
            = setTable (fun k => if k = c.toNat - ('0').toNat then true else t k) rest := by
          show (match charDigit c with
                | some d =>
                  if d < 9 then setTable (fun k => if k = d then true else t k) rest
                  else none
                | none => none)
              = setTable (fun k => if k = c.toNat - ('0').toNat then true else t k) rest
          rw [show charDigit c = some (c.toNat - ('0').toNat) by
                unfold charDigit; rw [if_pos hd]]
          exact if_pos h9
        rw [hstep, ih]
        constructor
        · rintro ⟨c2, hc2, hbad⟩
          exact ⟨c2, List.mem_cons_of_mem c hc2, hbad⟩
        · rintro ⟨c2, hc2, hbad⟩
          rcases List.mem_cons.mp hc2 with he | hin
          · subst he
            rcases hbad with hb1 | hb2
            · exact absurd hd hb1
            · omega
          · exact ⟨c2, hin, hbad⟩
      · have hstep : setTable t (c :: rest) = none := by
          show (match charDigit c with
                | some d =>
                  if d < 9 then setTable (fun k => if k = d then true else t k) rest
                  else none
                | none => none) = none
          rw [show charDigit c = some (c.toNat - ('0').toNat) by
                unfold charDigit; rw [if_pos hd]]
          exact if_neg h9
        rw [hstep]
        constructor
        · intro _
          exact ⟨c, List.mem_cons_self c rest, Or.inr (by omega)⟩
        · intro _
          rfl
    · have hstep : setTable t (c :: rest) = none := by
        show (match charDigit c with
              | some d =>
                if d < 9 then setTable (fun k => if k = d then true else t k) rest
                else none
              | none => none) = none
        rw [show charDigit c = none by unfold charDigit; rw [if_neg hd]]
      rw [hstep]
      constructor
      · intro _
        exact ⟨c, List.mem_cons_self c rest, Or.inl hd⟩
      · intro _
        rfl

/-- C2 (code bug): evaluation of the source's wraparound index function at
the three inputs named by the specification. `mod_idx(-1, 5) = 4` and
`mod_idx(7, 5) = 2` hold, but `mod_idx(-6, 5)` returns `0`, not the
floor-semantics representative `4` the specification requires: for `i < -n`
the quotient `p = n / (-i)` is `0`, so the result is
`((2^64 + i) mod 2^64) mod n = (2^64 - 6) mod 5 = 0`. -/
theorem c2_mod_idx_eval :
    mod_idx (-1) 5 = some 4 ∧ mod_idx 7 5 = some 2 ∧ mod_idx (-6) 5 = some 0
      ∧ ¬ mod_idx (-6) 5 = some 4 := by
  refine ⟨?_, ?_, ?_, ?_⟩ <;> decide

/-- C4 (counterexample): the input `3-23-99` has two `-` separators and even
a `9` digit in its third part, which the claim requires to be rejected, yet
`Rules::new` parses it without failing (the split parts beyond the second are
silently ignored). -/
theorem c4_counterexample : (Rules.new ("3-23-99")).isSome = true := by decide

/-- C4 (amended): `Rules::new` fails (panics) exactly when the input has no
`-` at all (so the split yields fewer than two parts and `v[1]` is out of
bounds), or when the first or the second `-`-separated part contains a
non-digit character or a digit of value 9 (the character `9`); parts beyond
the second are ignored, so extra `-` separators do not cause a failure. -/
theorem c4_rules_failure_iff (s : String) :
    Rules.new s = none ↔
      (match splitDash s.data with
        | b0 :: s0 :: _ =>
          (∃ c ∈ b0, ¬ c.isDigit = true ∨ 9 ≤ c.toNat - ('0').toNat)
          ∨ (∃ c ∈ s0, ¬ c.isDigit = true ∨ 9 ≤ c.toNat - ('0').toNat)
        | _ => True) := by
  rcases hsp : splitDash s.data with _ | ⟨b0, _ | ⟨s0, rest⟩⟩
  · have hval : Rules.new s = none := by
      unfold Rules.new
      rw [hsp]
    exact iff_of_true hval trivial
  · have hval : Rules.new s = none := by
      unfold Rules.new
      rw [hsp]
    exact iff_of_true hval trivial
  · cases h1 : setTable (fun _ => false) b0 with
    | none =>
      have hval : Rules.new s = none := by
        unfold Rules.new
        rw [hsp]
        show (match setTable (fun _ => false) b0 with
              | some tb =>
                match setTable (fun _ => false) s0 with
                | some ts => some (⟨tb, ts⟩ : Rules)
                | none => none
              | none => none) = none
        rw [h1]
      exact iff_of_true hval (Or.inl ((setTable_none b0 (fun _ => false)).mp h1))
    | some tb =>
      cases h2 : setTable (fun _ => false) s0 with
      | none =>
        have hval : Rules.new s = none := by
          unfold Rules.new
          rw [hsp]
          show (match setTable (fun _ => false) b0 with
                | some tb =>
                  match setTable (fun _ => false) s0 with
                  | some ts => some (⟨tb, ts⟩ : Rules)
                  | none => none
                | none => none) = none
          rw [h1]
          show (match setTable (fun _ => false) s0 with
                | some ts => some (⟨tb, ts⟩ : Rules)
                | none => none) = none
          rw [h2]
        exact iff_of_true hval (Or.inr ((setTable_none s0 (fun _ => false)).mp h2))
      | some ts =>
        have hval : Rules.new s = some ⟨tb, ts⟩ := by
          unfold Rules.new
          rw [hsp]
          show (match setTable (fun _ => false) b0 with
                | some tb =>
                  match setTable (fun _ => false) s0 with
                  | some ts => some (⟨tb, ts⟩ : Rules)
                  | none => none
                | none => none) = some ⟨tb, ts⟩
          rw [h1]
          show (match setTable (fun _ => false) s0 with
                | some ts2 => some (⟨tb, ts2⟩ : Rules)
                | none => none) = some ⟨tb, ts⟩
          rw [h2]
        constructor
        · intro hcontra
          rw [hval] at hcontra
          exact absurd hcontra (by simp)
        · rintro (hbad | hbad)
          · have hc := (setTable_none b0 (fun _ => false)).mpr hbad
            rw [h1] at hc
            exact absurd hc (by simp)
          · have hc := (setTable_none s0 (fun _ => false)).mpr hbad
            rw [h2] at hc
            exact absurd hc (by simp)

/-- C7: cursor moves of `Transform::next` for every rotation and mirror
combination: no rotation scans horizontally (`j + 1`, or `j - 1` mirrored),
rotate-left always moves to `i - 1` and rotate-right to `i + 1` regardless of
the mirror flag, and rotate-180 reverses the unrotated direction; the other
coordinate is unchanged in every case. -/
theorem c7_transform_next (i j : Int) :
    Transform.next ⟨Rotate.none, false⟩ i j = (i, j + 1)
    ∧ Transform.next ⟨Rotate.none, true⟩ i j = (i, j - 1)
    ∧ Transform.next ⟨Rotate.left, false⟩ i j = (i - 1, j)
    ∧ Transform.next ⟨Rotate.left, true⟩ i j = (i - 1, j)
    ∧ Transform.next ⟨Rotate.right, false⟩ i j = (i + 1, j)
    ∧ Transform.next ⟨Rotate.right, true⟩ i j = (i + 1, j)
    ∧ Transform.next ⟨Rotate.double, false⟩ i j = (i, j - 1)
    ∧ Transform.next ⟨Rotate.double, true⟩ i j = (i, j + 1) :=
  ⟨rfl, rfl, rfl, rfl, rfl, rfl, rfl, rfl⟩

/-- C8: parsing `3-23` yields a birth table true exactly at 3 and a survive
table true exactly at 2 and 3; parsing `2-` yields a birth table true exactly
at 2 and an all-false survive table. -/
theorem c8_rules_tables :
    ∃ r1 r2 : Rules, Rules.new ("3-23") = some r1
      ∧ (List.range 9).map r1.b
          = [false, false, false, true, false, false, false, false, false]
      ∧ (List.range 9).map r1.s
          = [false, false, true, true, false, false, false, false, false]
      ∧ Rules.new ("2-") = some r2
      ∧ (List.range 9).map r2.b
          = [false, false, true, false, false, false, false, false, false]
      ∧ (List.range 9).map r2.s
          = [false, false, false, false, false, false, false, false, false] := by
  refine ⟨_, _, rfl, ?_, ?_, rfl, ?_, ?_⟩ <;> decide

/-- A single-offset move equals floor-mod of the shifted coordinate, for
in-range starting points and offsets in `{-1, 0, 1}`. -/
theorem optMove_wrap (mv : Int) (hmv : mv = -1 ∨ mv = 0 ∨ mv = 1) (a n : Nat)
    (hn : 0 < n) (ha : a < n) :
    optMove mv a n = some (wrapIdx ((a : Int) + mv) n) := by
  rcases hmv with rfl | rfl | rfl
  · unfold optMove
    rw [if_pos rfl, mvUp_wrap a n hn ha]
    have he : (a : Int) + (-1) = (a : Int) - 1 := by ring
    rw [he]
  · unfold optMove
    rw [if_neg (by decide), if_neg (by decide), if_pos rfl]
    have he : (a : Int) + 0 = (a : Int) := by ring
    rw [he, ← wrap_self a n ha]
  · unfold optMove
    rw [if_neg (by decide), if_pos rfl, mvDn_wrap a n hn ha]

/-- C6: for positive dimensions, in-bounds coordinates and offsets in
`{-1, 0, 1}`, `index_move` returns exactly the floor-mod wrapped coordinates
(its panic branch is unreachable), the result is in bounds, and
`count_neigh` returns the number of live cells among the eight toroidal
Moore neighbors. -/
theorem c6_index_move_count (h w i j : Nat) (g : Grid) (mvi mvj : Int)
    (hh : 0 < h) (hw : 0 < w) (hi : i < h) (hj : j < w)
    (hmi : mvi = -1 ∨ mvi = 0 ∨ mvi = 1) (hmj : mvj = -1 ∨ mvj = 0 ∨ mvj = 1) :
    index_move h w i j mvi mvj
        = some (wrapIdx ((i : Int) + mvi) h, wrapIdx ((j : Int) + mvj) w)
    ∧ wrapIdx ((i : Int) + mvi) h < h ∧ wrapIdx ((j : Int) + mvj) w < w
    ∧ count_neigh g h w i j = some (mooreCount g h w i j) := by
  have e1 := optMove_wrap mvi hmi i h hh hi
  have e2 := optMove_wrap mvj hmj j w hw hj
  refine ⟨?_, wrapIdx_lt _ _ hh, wrapIdx_lt _ _ hw, ?_⟩
  · unfold index_move
    rw [e1, e2]
  · rw [count_neigh_eq]
    have u1 : mvUp i h = wrapIdx ((i : Int) - 1) h := mvUp_wrap i h hh hi
    have u2 : mvDn i h = wrapIdx ((i : Int) + 1) h := mvDn_wrap i h hh hi
    have u3 : mvUp j w = wrapIdx ((j : Int) - 1) w := mvUp_wrap j w hw hj
    have u4 : mvDn j w = wrapIdx ((j : Int) + 1) w := mvDn_wrap j w hw hj
    have u5 : i = wrapIdx ((i : Int)) h := wrap_self i h hi
    have u6 : j = wrapIdx ((j : Int)) w := wrap_self j w hj
    unfold cnVal mooreCount
    rw [u1, u2, u3, u4, ← u5, ← u6]

/-- Witness for C6 at a concrete corner cell of a 3 by 3 grid with the
up-left diagonal offset. -/
theorem c6_witness :
    index_move 3 3 0 2 (-1) 1
        = some (wrapIdx ((0 : Int) + (-1)) 3, wrapIdx ((2 : Int) + 1) 3)
    ∧ wrapIdx ((0 : Int) + (-1)) 3 < 3 ∧ wrapIdx ((2 : Int) + 1) 3 < 3
    ∧ count_neigh (fun _ _ => ⟨true, false⟩) 3 3 0 2
        = some (mooreCount (fun _ _ => ⟨true, false⟩) 3 3 0 2) :=
  c6_index_move_count 3 3 0 2 (fun _ _ => ⟨true, false⟩) (-1) 1 (by decide) (by decide)
    (by decide) (by decide) (by decide) (by decide)

/-- C1: a call to `next` never panics; each cell's new pending state is
computed by `cellNext` from the pre-transition grid only — in particular the
neighbor count used for every cell is `cnVal` of the grid as it was before
the loop began — and, for an engine whose cells are committed
(`succ = curr`, the invariant established by construction and by every
`update`), the whole of `next` coincides extensionally with the pure
synchronous map `pureStep` over the frozen prior grid. -/
theorem c1_next_synchronous (L : LifeLike)
    (hsc : ∀ p ∈ idxList L.hgt L.wth,
      (L.field p.1 p.2).succ = (L.field p.1 p.2).curr) :
    ∃ gmid L2,
      nextLoop L.rules L.hgt L.wth (idxList L.hgt L.wth) L.field = some gmid
      ∧ (∀ p ∈ idxList L.hgt L.wth,
          gmid p.1 p.2
            = cellNext L.rules (L.field p.1 p.2) (cnVal L.field L.hgt L.wth p.1 p.2))
      ∧ LifeLike.next L = some L2
      ∧ (∀ x y, L2.field x y = pureStep L.rules L.hgt L.wth L.field x y) := by
  obtain ⟨gmid, heq, hcur, hmem, hout⟩ :=
    nextLoop_spec L.rules L.hgt L.wth (idxList L.hgt L.wth) (idxList_nodup _ _) L.field
  refine ⟨gmid, (L.withField gmid).update, heq, hmem, ?_, ?_⟩
  · unfold LifeLike.next
    rw [heq]
  · obtain ⟨u1, u2, _, _, _, _, _, _⟩ := update_spec (L.withField gmid)
    intro x y
    by_cases hin : (x, y) ∈ idxList L.hgt L.wth
    · have hb := (idxList_mem L.hgt L.wth (x, y)).mp hin
      have e1 : ((L.withField gmid).update).field x y
          = ⟨(gmid x y).succ, (gmid x y).succ⟩ := u1 (x, y) hin
      have e2 : gmid x y
          = cellNext L.rules (L.field x y) (cnVal L.field L.hgt L.wth x y) :=
        hmem (x, y) hin
      have e3 : (L.field x y).succ = (L.field x y).curr := hsc (x, y) hin
      have e4 : (cellNext L.rules (L.field x y) (cnVal L.field L.hgt L.wth x y)).succ
          = (if (L.field x y).curr
              then L.rules.s (cnVal L.field L.hgt L.wth x y)
              else L.rules.b (cnVal L.field L.hgt L.wth x y)) :=
        cellNext_succ L.rules (L.field x y) (cnVal L.field L.hgt L.wth x y) e3
      rw [e1, e2, e4]
      unfold pureStep
      rw [if_pos hb]
    · have e1 : ((L.withField gmid).update).field x y = gmid x y := u2 x y hin
      have e2 : gmid x y = L.field x y := hout x y hin
      unfold pureStep
      rw [if_neg (fun hcontra => hin ((idxList_mem L.hgt L.wth (x, y)).mpr hcontra))]
      rw [e1, e2]

/-- Witness for C1: a 3 by 3 all-dead freshly constructed engine with rule
`0-`; the hypothesis holds by evaluation, the theorem applies, and the pure
map (hence one `next`) births every cell simultaneously. -/
theorem c1_witness :
    ∃ L0 : LifeLike, LifeLike.new 3 3 ("0-") = some L0
      ∧ (∀ p ∈ idxList L0.hgt L0.wth,
          (L0.field p.1 p.2).succ = (L0.field p.1 p.2).curr)
      ∧ (∃ gmid L2,
          nextLoop L0.rules L0.hgt L0.wth (idxList L0.hgt L0.wth) L0.field = some gmid
          ∧ (∀ p ∈ idxList L0.hgt L0.wth,
              gmid p.1 p.2
                = cellNext L0.rules (L0.field p.1 p.2)
                    (cnVal L0.field L0.hgt L0.wth p.1 p.2))
          ∧ LifeLike.next L0 = some L2
          ∧ (∀ x y, L2.field x y = pureStep L0.rules L0.hgt L0.wth L0.field x y))
      ∧ (∀ p ∈ idxList 3 3,
          (pureStep L0.rules L0.hgt L0.wth L0.field p.1 p.2).curr = true) := by
  refine ⟨_, rfl, ?_, ?_, ?_⟩
  · decide
  · exact c1_next_synchronous _ (by decide)
  · decide

/-- C10: after any `update`, every in-bounds cell is committed
(`succ = curr`); an immediately repeated `update` therefore changes no cell,
leaves the cached counter unchanged and reports zero born and zero dead. -/
theorem c10_update_idempotent (L : LifeLike) :
    (∀ p ∈ idxList L.hgt L.wth,
      ((L.update).field p.1 p.2).succ = ((L.update).field p.1 p.2).curr)
    ∧ (∀ x y, ((L.update).update).field x y = (L.update).field x y)
    ∧ ((L.update).update).cnt = (L.update).cnt
    ∧ ((L.update).update).born = 0
    ∧ ((L.update).update).dead = 0 := by
  obtain ⟨u1, _, _, _, _, _, uh, uw⟩ := update_spec L
  have hsucc : ∀ p ∈ idxList L.hgt L.wth,
      ((L.update).field p.1 p.2).succ = ((L.update).field p.1 p.2).curr := by
    intro p hp
    rw [u1 p hp]
  obtain ⟨v1, v2, v3, v4, v5, _, _, _⟩ := update_spec (L.update)
  have hidx : idxList (L.update).hgt (L.update).wth = idxList L.hgt L.wth := by
    rw [uh, uw]
  rw [hidx] at v1 v2 v3 v4
  have hb0 : ((L.update).update).born = 0 := by
    rw [v3, List.countP_eq_zero]
    intro p hp
    have he := hsucc p hp
    cases hc : ((L.update).field p.1 p.2).curr <;> rw [hc] at he <;> simp [he, hc]
  have hd0 : ((L.update).update).dead = 0 := by
    rw [v4, List.countP_eq_zero]
    intro p hp
    have he := hsucc p hp
    cases hc : ((L.update).field p.1 p.2).curr <;> rw [hc] at he <;> simp [he, hc]
  refine ⟨hsucc, ?_, ?_, hb0, hd0⟩
  · intro x y
    by_cases hin : (x, y) ∈ idxList L.hgt L.wth
    · have he := hsucc (x, y) hin
      have hv := v1 (x, y) hin
      rcases hcc : (L.update).field x y with ⟨cu, su⟩
      rw [hcc] at he hv
      have he2 : su = cu := he
      have hv2 : ((L.update).update).field x y = ⟨su, su⟩ := hv
      rw [hv2, he2]
    · exact v2 x y hin
  · rw [v5, hb0, hd0]
    omega

/-- C3: starting from a freshly constructed engine (all cells dead, counter
zero), after any successful sequence of pending births, pending kills and
commits, the cached alive counter equals a full re-scan of the current
states; moreover one further commit moves the counter by exactly
`born - dead` of that pass (stated without truncation as
`new cnt + dead = old cnt + born`) while keeping it equal to the re-scan. -/
theorem c3_alive_counter (ops : List Op) (h w : Nat) (rules : String) (L0 L : LifeLike)
    (hnew : LifeLike.new h w rules = some L0) (happ : applyOps L0 ops = some L) :
    L.cnt = aliveCount L.field L.hgt L.wth
    ∧ ∀ L2, applyOp L Op.update = some L2 →
        L2.cnt + L2.dead = L.cnt + L2.born
        ∧ L2.cnt = aliveCount L2.field L2.hgt L2.wth := by
  have hi0 := new_inv h w rules L0 hnew
  obtain ⟨e1, e2, e3⟩ := applyOps_inv h w ops L0 L hi0 happ
  have hcnt : L.cnt = aliveCount L.field L.hgt L.wth := by
    rw [e1, e2]
    exact e3
  refine ⟨hcnt, ?_⟩
  intro L2 h2
  simp only [applyOp, Option.some.injEq] at h2
  obtain ⟨c1, c2⟩ := update_cnt L hcnt
  obtain ⟨_, _, _, _, _, _, uh, uw⟩ := update_spec L
  rw [← h2]
  refine ⟨c2, ?_⟩
  rw [c1, uh, uw]


/-- Witness for C3: a 2 by 3 engine with the Life rules, two pending births,
a commit, a pending kill and a second commit. -/
theorem c3_witness :
    ∃ L0 L : LifeLike,
      LifeLike.new 2 3 ("3-23") = some L0
      ∧ applyOps L0 [Op.birth 0 0, Op.birth 1 2, Op.update, Op.kill 0 0, Op.update]
          = some L
      ∧ (L.cnt = aliveCount L.field L.hgt L.wth
        ∧ ∀ L2, applyOp L Op.update = some L2 →
            L2.cnt + L2.dead = L.cnt + L2.born
            ∧ L2.cnt = aliveCount L2.field L2.hgt L2.wth) :=
  ⟨_, _, rfl, rfl,
    c3_alive_counter [Op.birth 0 0, Op.birth 1 2, Op.update, Op.kill 0 0, Op.update]
      2 3 ("3-23") _ _ rfl rfl⟩

/-- On a grid with positive dimensions a pending birth never panics. -/
theorem birthAt_isSome (g : Grid) (h w : Nat) (i j : Int) (hh : 0 < h) (hw : 0 < w) :
    ∃ g2, birthAt g h w i j = some g2 := by
  obtain ⟨a, ha⟩ := mod_idx_isSome i h hh
  obtain ⟨b, hb⟩ := mod_idx_isSome j w hw
  refine ⟨setCell g a b (Cell.birth (g a b)), ?_⟩
  unfold birthAt
  rw [ha, hb]

/-- On a grid with positive dimensions a pending kill never panics. -/
theorem killAt_isSome (g : Grid) (h w : Nat) (i j : Int) (hh : 0 < h) (hw : 0 < w) :
    ∃ g2, killAt g h w i j = some g2 := by
  obtain ⟨a, ha⟩ := mod_idx_isSome i h hh
  obtain ⟨b, hb⟩ := mod_idx_isSome j w hw
  refine ⟨setCell g a b (Cell.kill (g a b)), ?_⟩
  unfold killAt
  rw [ha, hb]

/-- The txt parser, after consuming any prefix of accepted characters on a
grid with positive dimensions, fails at the first unrecognized character with
an error naming exactly that character, whatever follows it. -/
theorem parseTxt_unrecognized (t : Transform) (h w : Nat) (i0 j0 : Int)
    (hh : 0 < h) (hw : 0 < w) :
    ∀ (pre : List Char) (c : Char) (suf : List Char) (g : Grid) (i j : Int),
      (∀ d ∈ pre, txtOk d) → ¬ txtOk c →
      parseTxt t h w i0 j0 (pre ++ c :: suf) g i j
        = Except.error (PErr.unrecognized c Option.none) := by
  intro pre
  induction pre with
  | nil =>
    intro c suf g i j _ hc
    have h1 : ¬ c = '\n' := fun he => hc (Or.inl he)
    have h2 : ¬ c = 'x' := fun he => hc (Or.inr (Or.inl he))
    have h3 : ¬ c = '.' := fun he => hc (Or.inr (Or.inr (Or.inl he)))
    have h4 : ¬ c = ' ' := fun he => hc (Or.inr (Or.inr (Or.inr (Or.inl he))))
    have h5 : ¬ c = '\r' := fun he => hc (Or.inr (Or.inr (Or.inr (Or.inr he))))
    simp only [List.nil_append, parseTxt, if_neg h1, if_neg h2, if_neg h3, if_neg h4,
      if_neg h5]
  | cons d rest ih =>
    intro c suf g i j hpre hc
    have hd := hpre d (List.mem_cons_self d rest)
    have hrest : ∀ d2 ∈ rest, txtOk d2 := fun d2 hd2 => hpre d2 (List.mem_cons_of_mem d hd2)
    rw [List.cons_append]
    rcases hd with h1 | h2 | h3 | h4 | h5
    · subst h1
      simp only [parseTxt, if_pos rfl]
      exact ih c suf g _ _ hrest hc
    · subst h2
      obtain ⟨g2, hg2⟩ := birthAt_isSome g h w i j hh hw
      simp only [parseTxt, hg2]
      exact ih c suf g2 _ _ hrest hc
    · subst h3
      obtain ⟨g2, hg2⟩ := killAt_isSome g h w i j hh hw
      simp only [parseTxt, hg2]
      exact ih c suf g2 _ _ hrest hc
    · subst h4
      simp only [parseTxt]
      exact ih c suf g _ _ hrest hc
    · subst h5
      simp only [parseTxt]
      exact ih c suf g i j hrest hc

/-- The lif parser fails immediately on an unrecognized character in normal
mode, naming that character, whatever follows it. -/
theorem parseLif_unrecognized (t : Transform) (h w : Nat) (i0 j0 : Int)
    (c : Char) (rest : List Char) (g : Grid) (i j : Int) (hc : ¬ lifOk c) :
    parseLif t h w i0 j0 (c :: rest) false g i j
      = Except.error (PErr.unrecognized c Option.none) := by
  have h1 : ¬ c = '#' := fun he => hc (Or.inl he)
  have h2 : ¬ c = '\n' := fun he => hc (Or.inr (Or.inl he))
  have h3 : ¬ c = '*' := fun he => hc (Or.inr (Or.inr (Or.inl he)))
  have h4 : ¬ c = '.' := fun he => hc (Or.inr (Or.inr (Or.inr (Or.inl he))))
  have h5 : ¬ c = '\r' := fun he => hc (Or.inr (Or.inr (Or.inr (Or.inr he))))
  simp only [parseLif, if_neg h1, if_neg h2, if_neg h3, if_neg h4, if_neg h5]

/-- The cells parser fails immediately on an unrecognized character in normal
mode, naming that character together with its numeric code. -/
theorem parseCells_unrecognized (t : Transform) (h w : Nat) (i0 j0 : Int)
    (c : Char) (rest : List Char) (g : Grid) (i j : Int) (hc : ¬ cellsOk c) :
    parseCells t h w i0 j0 (c :: rest) false g i j
      = Except.error (PErr.unrecognized c (some c.toNat)) := by
  have h1 : ¬ c = '!' := fun he => hc (Or.inl he)
  have h2 : ¬ c = '\n' := fun he => hc (Or.inr (Or.inl he))
  have h3 : ¬ c = 'O' := fun he => hc (Or.inr (Or.inr (Or.inl he)))
  have h4 : ¬ c = '.' := fun he => hc (Or.inr (Or.inr (Or.inr (Or.inl he))))
  have h5 : ¬ c = '\r' := fun he => hc (Or.inr (Or.inr (Or.inr (Or.inr he))))
  simp only [parseCells, if_neg h1, if_neg h2, if_neg h3, if_neg h4, if_neg h5]

/-- The rle parser fails immediately on an unrecognized character in normal
mode, naming that character together with its numeric code, for any pending
repeat count and whatever follows it. -/
theorem parseRle_unrecognized (t : Transform) (h w : Nat) (i0 j0 : Int)
    (c : Char) (rest : List Char) (cnt : Nat) (g : Grid) (i j : Int) (hc : ¬ rleOk c) :
    parseRle t h w i0 j0 (c :: rest) false cnt g i j
      = Except.error (PErr.unrecognized c (some c.toNat)) := by
  have h1 : ¬ (c = '#' ∨ c = 'x') := fun he => hc (by
    rcases he with he | he
    · exact Or.inl he
    · exact Or.inr (Or.inl he))
  have h2 : ¬ c = '$' := fun he => hc (Or.inr (Or.inr (Or.inl he)))
  have h3 : ¬ c = 'o' := fun he => hc (Or.inr (Or.inr (Or.inr (Or.inl he))))
  have h4 : ¬ c = 'b' := fun he => hc (Or.inr (Or.inr (Or.inr (Or.inr (Or.inl he)))))
  have h5 : ¬ c.isDigit = true := fun he =>
    hc (Or.inr (Or.inr (Or.inr (Or.inr (Or.inr (Or.inl he))))))
  have h6 : ¬ c = '!' := fun he =>
    hc (Or.inr (Or.inr (Or.inr (Or.inr (Or.inr (Or.inr (Or.inl he)))))))
  have h7 : ¬ c = '\r' := fun he =>
    hc (Or.inr (Or.inr (Or.inr (Or.inr (Or.inr (Or.inr (Or.inr (Or.inl he))))))))
  have h8 : ¬ c = '\n' := fun he =>
    hc (Or.inr (Or.inr (Or.inr (Or.inr (Or.inr (Or.inr (Or.inr (Or.inr he))))))))
  simp only [parseRle, if_neg h1, if_neg h2, if_neg h3, if_neg h4, if_neg h5, if_neg h6,
    if_neg h7, if_neg h8]

/-- C9: for each of the four pattern formats, a character outside the
format's accepted alphabet is a fatal parse error whose value names exactly
the offending character, and — for the cells and rle formats — its numeric
code; the error does not depend on anything after the offending character,
so nothing past it is processed. For the txt format this holds after any
accepted prefix of the input. -/
theorem c9_unknown_char_fatal (t : Transform) (h w : Nat) (i0 j0 : Int)
    (hh : 0 < h) (hw : 0 < w) :
    (∀ (pre : List Char) (c : Char) (suf : List Char) (g : Grid) (i j : Int),
      (∀ d ∈ pre, txtOk d) → ¬ txtOk c →
      parseTxt t h w i0 j0 (pre ++ c :: suf) g i j
        = Except.error (PErr.unrecognized c Option.none))
    ∧ (∀ (c : Char) (rest : List Char) (g : Grid) (i j : Int), ¬ lifOk c →
      parseLif t h w i0 j0 (c :: rest) false g i j
        = Except.error (PErr.unrecognized c Option.none))
    ∧ (∀ (c : Char) (rest : List Char) (g : Grid) (i j : Int), ¬ cellsOk c →
      parseCells t h w i0 j0 (c :: rest) false g i j
        = Except.error (PErr.unrecognized c (some c.toNat)))
    ∧ (∀ (c : Char) (rest : List Char) (cnt : Nat) (g : Grid) (i j : Int), ¬ rleOk c →
      parseRle t h w i0 j0 (c :: rest) false cnt g i j
        = Except.error (PErr.unrecognized c (some c.toNat))) := by
  refine ⟨parseTxt_unrecognized t h w i0 j0 hh hw, ?_, ?_, ?_⟩
  · intro c rest g i j hc
    exact parseLif_unrecognized t h w i0 j0 c rest g i j hc
  · intro c rest g i j hc
    exact parseCells_unrecognized t h w i0 j0 c rest g i j hc
  · intro c rest cnt g i j hc
    exact parseRle_unrecognized t h w i0 j0 c rest cnt g i j hc

/-- Witness for C9: a txt pattern containing `?` after two accepted
characters fails naming `?`; the other three formats fail on a leading
unrecognized character, the cells and rle errors carrying the numeric code. -/
theorem c9_witness :
    parseTxt T_NONE 2 2 0 0 (('x') :: ('.') :: ('?') :: ('x') :: []) (fun _ _ => Cell.new) 0 0
        = Except.error (PErr.unrecognized ('?') Option.none)
    ∧ parseLif T_NONE 2 2 0 0 (('?') :: ('*') :: []) false (fun _ _ => Cell.new) 0 0
        = Except.error (PErr.unrecognized ('?') Option.none)
    ∧ parseCells T_NONE 2 2 0 0 (('?') :: ('O') :: []) false (fun _ _ => Cell.new) 0 0
        = Except.error (PErr.unrecognized ('?') (some (('?').toNat)))
    ∧ parseRle T_NONE 2 2 0 0 (('?') :: ('o') :: []) false 0 (fun _ _ => Cell.new) 0 0
        = Except.error (PErr.unrecognized ('?') (some (('?').toNat))) := by
  have key := c9_unknown_char_fatal T_NONE 2 2 0 0 (by decide) (by decide)
  refine ⟨?_, ?_, ?_, ?_⟩
  · exact key.1 (('x') :: ('.') :: []) ('?') (('x') :: []) (fun _ _ => Cell.new) 0 0
      (by decide) (by decide)
  · exact key.2.1 ('?') (('*') :: []) (fun _ _ => Cell.new) 0 0 (by decide)
  · exact key.2.2.1 ('?') (('O') :: []) (fun _ _ => Cell.new) 0 0 (by decide)
  · exact key.2.2.2 ('?') (('o') :: []) 0 (fun _ _ => Cell.new) 0 0 (by decide)

/-- C5 (counterexample): on the exact input named by the claim, `2o b2o$!`,
the rle branch panics at the space character (reporting it with numeric code
32) instead of performing the claimed placements: the rle loop of the source
has no arm for a space. -/
theorem c5_counterexample :
    parseRle T_NONE 5 5 0 0 (("2o b2o$!").data) false 0 (fun _ _ => Cell.new) 0 0
      = Except.error (PErr.unrecognized (' ') (some 32)) := rfl

/-- C5 (amended): on the space-free input `2ob2o$!` (here followed by the
trailing bytes `zz`) with the identity transform and origin `(0, 0)` on an
empty grid, the rle parser births cells at `(0,0)` and `(0,1)`, kills
`(0,2)`, births `(0,3)` and `(0,4)`, performs the `$` newline, and stops at
`!` leaving the trailing bytes unconsumed. -/
theorem c5_amended :
    ∃ (g : Grid) (i j : Int) (rem : List Char),
      parseRle T_NONE 5 5 0 0 (("2ob2o$!zz").data) false 0 (fun _ _ => Cell.new) 0 0
        = Except.ok (g, i, j, rem)
      ∧ (g 0 0).succ = true ∧ (g 0 1).succ = true ∧ (g 0 2).succ = false
      ∧ (g 0 3).succ = true ∧ (g 0 4).succ = true
      ∧ i = 1 ∧ j = 0 ∧ rem = ('z') :: ('z') :: [] :=
  ⟨_, _, _, _, rfl, rfl, rfl, rfl, rfl, rfl, rfl, rfl, rfl⟩
